import Mathlib

/-!
Shallow embedding of `src/GPy/core/gp.py` (class `GP`): the data model,
the constructor's validation and inference-method selection, the
`parameters_changed` hook, raw prediction (`_raw_predict`),
likelihood-adjusted prediction (`predict`) and the posterior samplers
(`posterior_samples_f`, `posterior_samples`), together with theorems
settling the specification claims about this module.

Matrices are rational-valued `Matrix (Fin n) (Fin m) ℚ`.  LAPACK's
triangular solve `dtrtrs(L, B, lower=1)` is embedded as an executable
forward substitution (`solveLower`), and its correctness
(`L * solveLower L B = B` for lower-triangular `L` with nonzero
diagonal) is proved rather than assumed.  Python exceptions are the
explicit `PyErr` error type of an `Except` result.  Three module-level
names referenced by `gp.py` are never imported or defined there
(`tdot` on line 88, `expectation_propagation` on line 53,
`Gaussian_Mixed_Noise` on line 164); evaluating any of them raises a
`NameError` at run time, which the embedding reproduces faithfully.
External collaborators (NumPy's samplers, the likelihood's
`predictive_values`, the exact-inference engine whose module is not
part of the sources here) enter as explicit function parameters.
-/

open Matrix

/-- Python-level error outcomes of the embedded methods.  `unsupported`
is the error kind the specification's error taxonomy predicts for an
incompatible inference-method request; the module itself never raises
it, which is part of what the theorems below establish. -/
inductive PyErr where
  | assertionError (msg : String)
  | nameError (missing : String)
  | attributeError (msg : String)
  | valueError (msg : String)
  | unsupported
  deriving DecidableEq

/-- Whether an `Except` result is a success.  Used to state that a call
returned normally (or did not). -/
def isOk {ε α : Type} : Except ε α → Bool
  | .ok _ => true
  | .error _ => false

/-- Pairwise kernel matrix: the embedding of `self.kern.K(A, B)` for the
external CovarianceProvider, whose kernel function `k` acts on input
rows.  Entry `(i, j)` is `k (A i) (B j)`. -/
def kmat {D P Q : ℕ} (k : (Fin D → ℚ) → (Fin D → ℚ) → ℚ)
    (A : Matrix (Fin P) (Fin D) ℚ) (B : Matrix (Fin Q) (Fin D) ℚ) :
    Matrix (Fin P) (Fin Q) ℚ :=
  Matrix.of fun i j => k (A i) (B j)

/-- The kernel diagonal `self.kern.Kdiag(A)`. -/
def kdiag {D P : ℕ} (k : (Fin D → ℚ) → (Fin D → ℚ) → ℚ)
    (A : Matrix (Fin P) (Fin D) ℚ) : Fin P → ℚ :=
  fun i => k (A i) (A i)

/-- Partial dot product of the first `kk` values of two streams; the
inner product a forward-substitution step takes with the already
computed solution prefix. -/
def pdot (f g : ℕ → ℚ) (kk : ℕ) : ℚ := ∑ j ∈ Finset.range kk, f j * g j

/-- Row `i` of `L` read as a stream over natural-number column indices
(zero beyond the matrix). -/
def rowFun {n : ℕ} (L : Matrix (Fin n) (Fin n) ℚ) (i : Fin n) : ℕ → ℚ :=
  fun j => if h : j < n then L i ⟨j, h⟩ else 0

/-- Forward substitution for one right-hand-side column `b`, processing
the first `kk` rows: the computational content of LAPACK's
`dtrtrs(L, b, lower=1)` as called by `_raw_predict`.  Row `i` computes
`(b i - sum of L i j * z j for j below i) / L i i`; the factor `L` is
only read, never inverted. -/
def solveCol {n : ℕ} (L : Matrix (Fin n) (Fin n) ℚ) (b : Fin n → ℚ) : ℕ → List ℚ
  | 0 => []
  | kk + 1 =>
    let zs := solveCol L b kk
    if h : kk < n then
      zs ++ [(b ⟨kk, h⟩ - pdot (rowFun L ⟨kk, h⟩) (fun j => zs.getD j 0) kk) / L ⟨kk, h⟩ ⟨kk, h⟩]
    else zs

/-- Forward substitution for a whole right-hand-side matrix `B`,
column by column: the embedding of
`dtrtrs(self.posterior._woodbury_chol, np.asfortranarray(Kx), lower=1)`
(`np.asfortranarray` is a memory-layout no-op). -/
def solveLower {n p : ℕ} (L : Matrix (Fin n) (Fin n) ℚ)
    (B : Matrix (Fin n) (Fin p) ℚ) : Matrix (Fin n) (Fin p) ℚ :=
  Matrix.of fun i j => (solveCol L (fun r => B r j) n).getD i 0

/-- `L` is lower triangular: every entry strictly above the diagonal is
zero. -/
def lowerTri {n : ℕ} (L : Matrix (Fin n) (Fin n) ℚ) : Prop :=
  ∀ i j : Fin n, i < j → L i j = 0

instance {n : ℕ} (L : Matrix (Fin n) (Fin n) ℚ) : Decidable (lowerTri L) :=
  inferInstanceAs (Decidable (∀ i j : Fin n, i < j → L i j = 0))

/-- `A` is positive semidefinite as a quadratic form. -/
def isPSD {n : ℕ} (A : Matrix (Fin n) (Fin n) ℚ) : Prop :=
  ∀ x : Fin n → ℚ, 0 ≤ x ⬝ᵥ A.mulVec x

/-- The cached result of inference, as read by prediction and sampling:
`self.posterior` with its `_woodbury_chol`, `_woodbury_vector`,
`log_marginal` and `dL_dK` members. -/
structure Posterior (N M : ℕ) where
  woodbury_chol : Matrix (Fin N) (Fin N) ℚ
  woodbury_vector : Matrix (Fin N) (Fin M) ℚ
  log_marginal : ℚ
  dL_dK : Matrix (Fin N) (Fin N) ℚ

/-- The run-time class of `self.likelihood`, as far as the `isinstance`
dispatch in `posterior_samples` and the constructor can observe it:
a (homoscedastic) Gaussian, a mixed-noise likelihood
(`Gaussian_Mixed_Noise`, a separate class, not an instance of
`Gaussian`), or any other likelihood.  `params` embeds
`_get_params()`. -/
inductive LikKind where
  | gaussian (params : List ℚ)
  | mixedNoise (params : List ℚ)
  | other

/-- The variance part of a raw prediction: a diagonal reported as an
`N_new x 1` column, or a full `N_new x N_new` covariance. -/
inductive RawVar (P : ℕ) where
  | diag (v : Matrix (Fin P) (Fin 1) ℚ)
  | full (V : Matrix (Fin P) (Fin P) ℚ)
  deriving DecidableEq

/-- The quadruple `predictive_values` returns: observation-space mean,
variance, and the two confidence bounds. -/
def PVOut (P M : ℕ) : Type :=
  Matrix (Fin P) (Fin M) ℚ × RawVar P × Matrix (Fin P) (Fin M) ℚ × Matrix (Fin P) (Fin M) ℚ

/-- An inference engine: `inference_method.inference(K, likelihood, Y)`
produces a `Posterior` or raises. -/
structure InfMethod (N M : ℕ) where
  inference : Matrix (Fin N) (Fin N) ℚ → LikKind → Matrix (Fin N) (Fin M) ℚ →
    Except PyErr (Posterior N M)

/-- The state of a `GP` model instance: observations, kernel function,
likelihood (its dispatchable kind plus its external `predictive_values`
transform), the selected inference method, and the mutable cached
fields `self.K` and `self.posterior`. -/
structure GPModel (N D M : ℕ) where
  X : Matrix (Fin N) (Fin D) ℚ
  Y : Matrix (Fin N) (Fin M) ℚ
  kern : (Fin D → ℚ) → (Fin D → ℚ) → ℚ
  likKind : LikKind
  predictive_values : {P : ℕ} → Matrix (Fin P) (Fin M) ℚ → RawVar P → Bool → PVOut P M
  inference_method : Option (InfMethod N M)
  K : Matrix (Fin N) (Fin N) ℚ
  posterior : Posterior N M

/-- `GP.parameters_changed` (gp.py lines 62-65): recompute
`self.K = self.kern.K(self.X)` and then
`self.posterior = self.inference_method.inference(self.K, self.likelihood, self.Y)`.
The right-hand side of the `self.posterior` assignment is evaluated
first, so if inference raises, the exception propagates with the
previous `self.posterior` still in place (while `self.K` has already
been overwritten).  A `None` inference method (the constructor leaves
`None` for a non-Gaussian likelihood with no method supplied) raises an
`AttributeError`. -/
def parameters_changed {N D M : ℕ} (mdl : GPModel N D M) :
    Option PyErr × GPModel N D M :=
  let Knew := kmat mdl.kern mdl.X mdl.X
  match mdl.inference_method with
  | none =>
    (some (PyErr.attributeError "NoneType object has no attribute inference"),
     { mdl with K := Knew })
  | some im =>
    match im.inference Knew mdl.likKind mdl.Y with
    | .error e => (some e, { mdl with K := Knew })
    | .ok post => (none, { mdl with K := Knew, posterior := post })

/-- `GP.__init__` (gp.py lines 30-60).  The `assert X.ndim == 2`,
`assert Y.ndim == 2` and the `isinstance` asserts on kernel and
likelihood hold by typing here; `assert Y.shape[0] == self.num_data`
is the explicit row-count check.  The inference-method selection
embeds lines 48-55: with `None` supplied, a Gaussian likelihood gets
`ExactGaussianInference()` (the engine lives in a module that is not
part of the sources here, so the constructed engine is the
`exact_engine` parameter); any likelihood other than Gaussian leaves
the method `None`.  With a non-`None` `inference_method` argument the
source executes `inference_method = expectation_propagation`, and
`expectation_propagation` is an unbound module-level name, so the call
raises `NameError` before the `print` on line 54 ever runs.  Finally
the constructor calls `self.parameters_changed()`, which performs the
first assignment of `self.K` and `self.posterior` (the placeholder
field values below are unobservable: they are overwritten on success,
and on failure no model object is returned). -/
def GP_init {NX NY D M : ℕ} (X : Matrix (Fin NX) (Fin D) ℚ)
    (Y : Matrix (Fin NY) (Fin M) ℚ)
    (kernel : (Fin D → ℚ) → (Fin D → ℚ) → ℚ) (likelihood : LikKind)
    (pv : {P : ℕ} → Matrix (Fin P) (Fin M) ℚ → RawVar P → Bool → PVOut P M)
    (exact_engine : InfMethod NX M)
    (inference_method : Option (InfMethod NX M)) :
    Except PyErr (GPModel NX D M) :=
  if h : NY = NX then
    let Yc : Matrix (Fin NX) (Fin M) ℚ := Matrix.of fun i j => Y (Fin.cast h.symm i) j
    match inference_method with
    | some _ => Except.error (PyErr.nameError "expectation_propagation")
    | none =>
      let im : Option (InfMethod NX M) :=
        match likelihood with
        | .gaussian _ => some exact_engine
        | _ => none
      let mdl0 : GPModel NX D M :=
        { X := X, Y := Yc, kern := kernel, likKind := likelihood,
          predictive_values := pv, inference_method := im,
          K := 0, posterior := ⟨0, 0, 0, 0⟩ }
      match parameters_changed mdl0 with
      | (some e, _) => Except.error e
      | (none, mdl1) => Except.ok mdl1
  else
    Except.error (PyErr.assertionError "Y.shape[0] == self.num_data")

/-- `GP._raw_predict` (gp.py lines 73-93), for `which_parts='all'` (the
`stop` argument is unused by the source).  Computes
`Kx = self.kern.K(_Xnew, self.X).T`, forward-substitutes
`LiKx = dtrtrs(L, Kx, lower=1)`, and `mu = np.dot(Kx.T, woodbury_vector)`.
With `full_cov=True` the source then evaluates `tdot(LiKx.T)`, and
`tdot` is an unbound module-level name, so the call raises `NameError`.
With `full_cov=False` it returns
`var = Kdiag(_Xnew) - np.sum(LiKx*LiKx, 0)` reshaped to a column. -/
def rawPredict {N D M P : ℕ} (mdl : GPModel N D M)
    (Xnew : Matrix (Fin P) (Fin D) ℚ) (full_cov : Bool) :
    Except PyErr (Matrix (Fin P) (Fin M) ℚ × RawVar P) :=
  let Kx := (kmat mdl.kern Xnew mdl.X)ᵀ
  let LiKx := solveLower mdl.posterior.woodbury_chol Kx
  let mu := Kxᵀ * mdl.posterior.woodbury_vector
  if full_cov then
    Except.error (PyErr.nameError "tdot")
  else
    Except.ok (mu, RawVar.diag (Matrix.of fun i _ =>
      kdiag mdl.kern Xnew i - ∑ j, LiKx j i * LiKx j i))

/-- The diagonal-variance entry of a raw-prediction result (zero when
the result is an error or a full covariance); a projection used to
state properties of `rawPredict`. -/
def diagEntry {M P : ℕ} (r : Except PyErr (Matrix (Fin P) (Fin M) ℚ × RawVar P)) (i : Fin P) : ℚ :=
  match r with
  | .ok (_, .diag v) => v i 0
  | _ => 0

/-- `GP.predict` (gp.py lines 95-119): raw prediction pushed through
the external likelihood's `predictive_values`.  The method reads
`self` but writes nothing, which the returned model value records. -/
def predict {N D M P : ℕ} (mdl : GPModel N D M)
    (Xnew : Matrix (Fin P) (Fin D) ℚ) (full_cov : Bool) :
    Except PyErr (PVOut P M) × GPModel N D M :=
  match rawPredict mdl Xnew full_cov with
  | .error e => (.error e, mdl)
  | .ok (mu, var) => (.ok (mdl.predictive_values mu var full_cov), mdl)

/-- Row-major flattening of a matrix, `np.ndarray.flatten`. -/
def flattenM {P M : ℕ} (A : Matrix (Fin P) (Fin M) ℚ) : List ℚ :=
  (List.ofFn fun i : Fin P => List.ofFn fun j : Fin M => A i j).flatten

/-- `np.diag` of a flat vector. -/
def diagList (v : List ℚ) : List (List ℚ) :=
  (List.range v.length).map fun i =>
    (List.range v.length).map fun j => if i = j then v.getD i 0 else 0

/-- A matrix as a list of rows. -/
def matToLists {P Q : ℕ} (V : Matrix (Fin P) (Fin Q) ℚ) : List (List ℚ) :=
  List.ofFn fun i : Fin P => List.ofFn fun j : Fin Q => V i j

/-- List-of-rows transpose (`np.ndarray.T` on a rectangular array). -/
def trL (A : List (List ℚ)) : List (List ℚ) :=
  (List.range (A.headD []).length).map fun j => A.map fun r => r.getD j 0

/-- `np.random.multivariate_normal(mean, cov, size)`, modelled over the
external entropy source `oracle`: NumPy validates that `cov` is square
with the same dimension as `mean` (raising `ValueError` otherwise) and
returns a `size x len(mean)` array of draws.  The draws themselves are
whatever the entropy source yields around the mean; no claim below
depends on their distribution. -/
def mvnormal (oracle : ℕ → ℕ → ℚ) (mean : List ℚ) (cov : List (List ℚ))
    (size : ℕ) : Except PyErr (List (List ℚ)) :=
  if cov.length = mean.length ∧ cov.all fun r => r.length = mean.length then
    Except.ok ((List.range size).map fun i =>
      (List.range mean.length).map fun j => mean.getD j 0 + oracle i j)
  else
    Except.error (PyErr.valueError "mean and cov must have consistent shapes")

/-- Elementwise `Ysim += np.random.normal(0, noise_std, Ysim.shape)`,
modelled over the external entropy source `oracle` (which absorbs the
scaling by `noise_std`; no claim depends on the drawn values). -/
def addNoiseM (oracle : ℕ → ℕ → ℚ) (Ysim : List (List ℚ)) : List (List ℚ) :=
  Ysim.mapIdx fun i row => row.mapIdx fun j x => x + oracle i j

/-- `GP.posterior_samples_f` (gp.py lines 121-142).  In the source the
parameter default is `full_cov=True`; callers here always pass the flag
explicitly.  The guard `v.reshape(m.size,-1) if len(v.shape)==3 else v`
never fires (`v` is two-dimensional on both branches), the samples are
drawn with `np.random.multivariate_normal` and transposed.  With
`full_cov=True` the inner `_raw_predict` call raises `NameError` on the
unbound `tdot` before any sampling happens. -/
def posterior_samples_f {N D M P : ℕ} (mdl : GPModel N D M)
    (oracle : ℕ → ℕ → ℚ) (X : Matrix (Fin P) (Fin D) ℚ) (size : ℕ)
    (full_cov : Bool) : Except PyErr (List (List ℚ)) :=
  match rawPredict mdl X full_cov with
  | .error e => .error e
  | .ok (m, v) =>
    match v with
    | .diag d => (mvnormal oracle (flattenM m) (diagList (flattenM d)) size).map trL
    | .full V => (mvnormal oracle (flattenM m) (matToLists V) size).map trL

/-- `GP.posterior_samples` (gp.py lines 144-171).  In the source the
parameter defaults are `full_cov=True, noise_model=None`; callers here
pass both explicitly.  After latent sampling, noise is added by
`isinstance` dispatch on the likelihood: a `Gaussian` likelihood adds
i.i.d. normal noise; for any other likelihood the `elif` on line 164
evaluates `isinstance(self.likelihood, Gaussian_Mixed_Noise)` whose
second argument is an unbound module-level name, so `NameError` is
raised — the `assert noise_model is not None` on line 165 and the
generic `samples` delegation on line 169 are both unreachable.  The
`noise_model` argument is consequently never read. -/
def posterior_samples {N D M P : ℕ} (mdl : GPModel N D M)
    (oracle oracle2 : ℕ → ℕ → ℚ) (X : Matrix (Fin P) (Fin D) ℚ) (size : ℕ)
    (full_cov : Bool) (noise_model : Option ℕ) :
    Except PyErr (List (List ℚ)) :=
  match posterior_samples_f mdl oracle X size full_cov with
  | .error e => .error e
  | .ok Ysim =>
    match mdl.likKind with
    | .gaussian _ => .ok (addNoiseM oracle2 Ysim)
    | .mixedNoise _ => .error (PyErr.nameError "Gaussian_Mixed_Noise")
    | .other => .error (PyErr.nameError "Gaussian_Mixed_Noise")

/- Concrete instances used by counterexamples and witnesses. -/

/-- A concrete one-dimensional kernel function (linear kernel). -/
def kLin : (Fin 1 → ℚ) → (Fin 1 → ℚ) → ℚ := fun a b => a 0 * b 0

/-- A concrete external `predictive_values`: passes raw moments through
(mean, variance, and both bounds equal to the mean). -/
def pvId {M : ℕ} : {P : ℕ} → Matrix (Fin P) (Fin M) ℚ → RawVar P → Bool → PVOut P M :=
  fun mu v _ => (mu, v, mu, mu)

/-- A concrete inference engine that always fails. -/
def engineFail {N M : ℕ} : InfMethod N M :=
  ⟨fun _ _ _ => .error (PyErr.valueError "inference failed")⟩

/-- A concrete caller-chosen inference engine that would succeed,
storing `K` as both matrix members of the posterior. -/
def engineSupplied {N M : ℕ} : InfMethod N M :=
  ⟨fun K _ Y => .ok ⟨K, Y, 7, K⟩⟩

/-- A concrete cached posterior with `L = [[1]]`, `wv = [[1]]`. -/
def postOne : Posterior 1 1 := ⟨Matrix.of fun _ _ => 1, Matrix.of fun _ _ => 1, 0, 0⟩

/-- A concrete model state (N = 1, D = 1, M = 1) with `X = [[2]]` and
cached posterior `postOne`; its diagonal predictive variance at
`Xnew = [[3]]` evaluates to a negative number. -/
def mdlBad : GPModel 1 1 1 :=
  { X := Matrix.of fun _ _ => 2, Y := Matrix.of fun _ _ => 1, kern := kLin,
    likKind := .gaussian [1], predictive_values := pvId,
    inference_method := none, K := 0, posterior := postOne }

/-- A single new input point `Xnew = [[3]]`. -/
def xNew3 : Matrix (Fin 1) (Fin 1) ℚ := Matrix.of fun _ _ => 3

/-- A mixed-noise variant of the concrete model state. -/
def mdlMixed : GPModel 1 1 1 :=
  { X := Matrix.of fun _ _ => 2, Y := Matrix.of fun _ _ => 1, kern := kLin,
    likKind := .mixedNoise [1, 2], predictive_values := pvId,
    inference_method := none, K := 0, posterior := postOne }

/-- A constant entropy source for the sampling oracles. -/
def zOracle : ℕ → ℕ → ℚ := fun _ _ => 0

/-- A consistent model state: `X = [[1]]`, linear kernel, so
`K = [[1]]`; noise `sigma1 = [[3]]`; and the cached Cholesky factor
`L = [[2]]` satisfies `L * Lᵀ = K + sigma1` exactly. -/
def postGood : Posterior 1 1 := ⟨Matrix.of fun _ _ => 2, Matrix.of fun _ _ => 0, 0, 0⟩

/-- The noise matrix of the consistent model state. -/
def sigma1 : Matrix (Fin 1) (Fin 1) ℚ := Matrix.of fun _ _ => 3

/-- The consistent model state itself. -/
def mdlGood : GPModel 1 1 1 :=
  { X := Matrix.of fun _ _ => 1, Y := Matrix.of fun _ _ => 1, kern := kLin,
    likKind := .gaussian [3], predictive_values := pvId,
    inference_method := none, K := 0, posterior := postGood }

/-- A 2-point training set for exercising genuine forward substitution:
`X = [[0], [1]]`. -/
def xTwo : Matrix (Fin 2) (Fin 1) ℚ := Matrix.of fun i _ => if i = 0 then 0 else 1

/-- A lower-triangular factor `L = [[1, 0], [1, 2]]`. -/
def lTwo : Matrix (Fin 2) (Fin 2) ℚ :=
  Matrix.of fun i j => if i = 0 then (if j = 0 then 1 else 0) else (if j = 0 then 1 else 2)

/-- A Woodbury vector `wv = [[1], [1]]`. -/
def wvTwo : Matrix (Fin 2) (Fin 1) ℚ := Matrix.of fun _ _ => 1

/-- The 2-point model state built from the pieces above. -/
def mdlTwo : GPModel 2 1 1 :=
  { X := xTwo, Y := wvTwo, kern := kLin,
    likKind := .gaussian [1], predictive_values := pvId,
    inference_method := none, K := 0, posterior := ⟨lTwo, wvTwo, 0, 0⟩ }

/-- Concrete shape-mismatched observations: `X` has 2 rows. -/
def xRows2 : Matrix (Fin 2) (Fin 1) ℚ := Matrix.of fun _ _ => 0

/-- Concrete shape-mismatched observations: `Y` has 1 row. -/
def yRows1 : Matrix (Fin 1) (Fin 1) ℚ := Matrix.of fun _ _ => 0

/-- Concrete well-shaped observations for the constructor theorems. -/
def xRows1 : Matrix (Fin 1) (Fin 1) ℚ := Matrix.of fun _ _ => 1

/- Helper lemmas about forward substitution. -/

/-- Reading an appended list below the prefix length sees the prefix. -/
theorem getD_append_lt (l l2 : List ℚ) (i : ℕ) (d : ℚ) (h : i < l.length) :
    (l ++ l2).getD i d = l.getD i d := by
  induction l generalizing i with
  | nil => simp at h
  | cons a l ih =>
    cases i with
    | zero => rfl
    | succ i =>
      simp only [List.cons_append, List.getD_cons_succ]
      exact ih i (by simpa using h)

/-- Reading an appended singleton at the prefix length sees the new
element. -/
theorem getD_append_self (l : List ℚ) (x d : ℚ) :
    (l ++ [x]).getD l.length d = x := by
  induction l with
  | nil => rfl
  | cons a l ih => simpa using ih

/-- Variant of `getD_append_self` with the index given as any number
equal to the prefix length. -/
theorem getD_append_len (l : List ℚ) (x d : ℚ) (i : ℕ) (h : i = l.length) :
    (l ++ [x]).getD i d = x := by
  subst h
  exact getD_append_self l x d

/-- `solveCol` after `kk` steps has `min kk n` entries. -/
theorem solveCol_length {n : ℕ} (L : Matrix (Fin n) (Fin n) ℚ)
    (b : Fin n → ℚ) (kk : ℕ) : (solveCol L b kk).length = min kk n := by
  induction kk with
  | zero => simp [solveCol]
  | succ kk ih =>
    by_cases h : kk < n
    · simp only [solveCol, h, dif_pos, List.length_append, List.length_cons,
        List.length_nil, ih]
      omega
    · simp only [solveCol, h, dif_neg, not_false_iff, ih]
      omega

/-- One more substitution step does not disturb earlier entries. -/
theorem solveCol_getD_succ_lt {n : ℕ} (L : Matrix (Fin n) (Fin n) ℚ)
    (b : Fin n → ℚ) (kk i : ℕ) (hik : i < kk) (hin : i < n) :
    (solveCol L b (kk + 1)).getD i 0 = (solveCol L b kk).getD i 0 := by
  have hlen : i < (solveCol L b kk).length := by
    rw [solveCol_length]; omega
  by_cases h : kk < n
  · simp only [solveCol, h, dif_pos]
    exact getD_append_lt _ _ _ _ hlen
  · simp only [solveCol, h, dif_neg, not_false_iff]

/-- Entry `i` of the solution is already fixed at step `i + 1`. -/
theorem solveCol_getD_stable {n : ℕ} (L : Matrix (Fin n) (Fin n) ℚ)
    (b : Fin n → ℚ) (i : ℕ) (hin : i < n) :
    ∀ kk, i < kk → (solveCol L b kk).getD i 0 = (solveCol L b (i + 1)).getD i 0 := by
  intro kk
  induction kk with
  | zero => omega
  | succ kk ih =>
    intro hik
    rcases Nat.lt_or_ge i kk with h | h
    · rw [solveCol_getD_succ_lt L b kk i h hin, ih h]
    · have : kk = i := by omega
      subst this
      rfl

/-- The recurrence satisfied by entry `i` of the solution. -/
theorem solveCol_getD_self {n : ℕ} (L : Matrix (Fin n) (Fin n) ℚ)
    (b : Fin n → ℚ) (i : ℕ) (h : i < n) :
    (solveCol L b (i + 1)).getD i 0 =
      (b ⟨i, h⟩ - pdot (rowFun L ⟨i, h⟩) (fun j => (solveCol L b i).getD j 0) i) /
        L ⟨i, h⟩ ⟨i, h⟩ := by
  have hlen : (solveCol L b i).length = i := by
    rw [solveCol_length]; omega
  simp only [solveCol, h, dif_pos]
  exact getD_append_len _ _ _ _ hlen.symm

/-- Entry `i` of the finished solution, written against the finished
solution itself. -/
theorem solveCol_final_getD {n : ℕ} (L : Matrix (Fin n) (Fin n) ℚ)
    (b : Fin n → ℚ) (i : Fin n) :
    (solveCol L b n).getD i 0 =
      (b i - pdot (rowFun L i) (fun j => (solveCol L b n).getD j 0) i) / L i i := by
  have h1 : (solveCol L b n).getD i 0 = (solveCol L b (i + 1)).getD i 0 :=
    solveCol_getD_stable L b i i.isLt n i.isLt
  have h2 : pdot (rowFun L ⟨i.val, i.isLt⟩) (fun j => (solveCol L b i.val).getD j 0) i.val =
      pdot (rowFun L ⟨i.val, i.isLt⟩) (fun j => (solveCol L b n).getD j 0) i.val := by
    unfold pdot
    refine Finset.sum_congr rfl ?_
    intro j hj
    have hji : j < i.val := Finset.mem_range.mp hj
    have hjn : j < n := lt_trans hji i.isLt
    have e1 : (solveCol L b i.val).getD j 0 = (solveCol L b n).getD j 0 := by
      rw [solveCol_getD_stable L b j hjn i.val hji,
        solveCol_getD_stable L b j hjn n hjn]
    simp only [e1]
  rw [h1, solveCol_getD_self L b i.val i.isLt, h2]

/-- Forward substitution solves the lower-triangular system: the
computed vector satisfies every equation of `L z = b` when `L` is lower
triangular with nonzero diagonal. -/
theorem solveCol_mulVec_eq {n : ℕ} (L : Matrix (Fin n) (Fin n) ℚ)
    (hL : lowerTri L) (hd : ∀ i, L i i ≠ 0) (b : Fin n → ℚ) (i : Fin n) :
    L.mulVec (fun r => (solveCol L b n).getD r 0) i = b i := by
  set g : ℕ → ℚ := fun j => (solveCol L b n).getD j 0 with hg
  have hrange : L.mulVec (fun r => g r) i = ∑ j ∈ Finset.range n, rowFun L i j * g j := by
    rw [Matrix.mulVec, Matrix.dotProduct,
      ← Fin.sum_univ_eq_sum_range (fun j => rowFun L i j * g j) n]
    refine Finset.sum_congr rfl ?_
    intro j _
    simp [rowFun, j.isLt]
  have hsub : Finset.range (i.val + 1) ⊆ Finset.range n :=
    Finset.range_subset.mpr i.isLt
  have hsplit : ∑ j ∈ Finset.range n, rowFun L i j * g j =
      ∑ j ∈ Finset.range (i.val + 1), rowFun L i j * g j := by
    symm
    refine Finset.sum_subset hsub ?_
    intro j hjn hj1
    have hjlt : j < n := Finset.mem_range.mp hjn
    have hij : i.val < j := by
      simp only [Finset.mem_range] at hj1
      omega
    have hz : rowFun L i j = 0 := by
      simp only [rowFun, hjlt, dif_pos]
      exact hL i ⟨j, hjlt⟩ hij
    rw [hz, zero_mul]
  have hdiag : rowFun L i i.val = L i i := by
    simp [rowFun, i.isLt]
  have hzval : g i.val = (b i - pdot (rowFun L i) g i) / L i i :=
    solveCol_final_getD L b i
  rw [hrange, hsplit, Finset.sum_range_succ, hdiag, hzval]
  have hpd : ∑ j ∈ Finset.range i.val, rowFun L i j * g j = pdot (rowFun L i) g i := rfl
  rw [hpd, mul_comm, div_mul_cancel₀ _ (hd i)]
  ring

/-- Forward substitution solves the whole system column by column:
`L * solveLower L B = B` for lower-triangular `L` with nonzero
diagonal.  The source's `dtrtrs` call therefore really computes
`Z` with `L Z = Kxᵀ` without inverting `L`. -/
theorem solveLower_mul {n p : ℕ} (L : Matrix (Fin n) (Fin n) ℚ)
    (hL : lowerTri L) (hd : ∀ i, L i i ≠ 0) (B : Matrix (Fin n) (Fin p) ℚ) :
    L * solveLower L B = B := by
  ext i j
  rw [Matrix.mul_apply]
  have h := solveCol_mulVec_eq L hL hd (fun r => B r j) i
  simpa [Matrix.mulVec, Matrix.dotProduct, solveLower] using h

/-- C1: for every model with a valid cached Posterior (lower-triangular
Cholesky factor with nonzero diagonal) and every input matrix `Xnew`,
`_raw_predict(Xnew, full_cov=False)` returns
`mean = Kx * woodbury_vector` with `Kx = Covariance(Xnew, X)` and
`variance = diag(Covariance(Xnew))` minus the columnwise sum of `Z*Z`
reshaped to an `N_new x 1` column, where `Z` solves `L Z = Kxᵀ` by
forward substitution against the Posterior's lower Cholesky factor `L`
(the third conjunct certifies that the substitution output really
satisfies `L Z = Kxᵀ`; `L` is never inverted). -/
theorem rawPredict_diag_spec {N D M P : ℕ} (mdl : GPModel N D M)
    (Xnew : Matrix (Fin P) (Fin D) ℚ)
    (hL : lowerTri mdl.posterior.woodbury_chol)
    (hd : ∀ i, mdl.posterior.woodbury_chol i i ≠ 0) :
    rawPredict mdl Xnew false =
      Except.ok (kmat mdl.kern Xnew mdl.X * mdl.posterior.woodbury_vector,
        RawVar.diag (Matrix.of fun i _ => kdiag mdl.kern Xnew i -
          ∑ j, solveLower mdl.posterior.woodbury_chol ((kmat mdl.kern Xnew mdl.X)ᵀ) j i *
            solveLower mdl.posterior.woodbury_chol ((kmat mdl.kern Xnew mdl.X)ᵀ) j i)) ∧
    mdl.posterior.woodbury_chol *
        solveLower mdl.posterior.woodbury_chol ((kmat mdl.kern Xnew mdl.X)ᵀ) =
      (kmat mdl.kern Xnew mdl.X)ᵀ :=
  ⟨rfl, solveLower_mul mdl.posterior.woodbury_chol hL hd _⟩

/-- Witness for C1 at the concrete two-point model `mdlTwo` and input
`xNew3`: the hypotheses hold and the conclusion evaluates. -/
theorem rawPredict_diag_spec_witness :
    lowerTri mdlTwo.posterior.woodbury_chol ∧
    (∀ i, mdlTwo.posterior.woodbury_chol i i ≠ 0) ∧
    (rawPredict mdlTwo xNew3 false =
      Except.ok (kmat mdlTwo.kern xNew3 mdlTwo.X * mdlTwo.posterior.woodbury_vector,
        RawVar.diag (Matrix.of fun i _ => kdiag mdlTwo.kern xNew3 i -
          ∑ j, solveLower mdlTwo.posterior.woodbury_chol ((kmat mdlTwo.kern xNew3 mdlTwo.X)ᵀ) j i *
            solveLower mdlTwo.posterior.woodbury_chol ((kmat mdlTwo.kern xNew3 mdlTwo.X)ᵀ) j i)) ∧
    mdlTwo.posterior.woodbury_chol *
        solveLower mdlTwo.posterior.woodbury_chol ((kmat mdlTwo.kern xNew3 mdlTwo.X)ᵀ) =
      (kmat mdlTwo.kern xNew3 mdlTwo.X)ᵀ) :=
  ⟨by decide, by decide, rawPredict_diag_spec mdlTwo xNew3 (by decide) (by decide)⟩

/-- C2 counterexample: the code performs no clipping, validation or
error reporting on the diagonal variance.  At the concrete model state
`mdlBad` (cached Cholesky factor `[[1]]`, linear kernel, `X = [[2]]`)
and input `[[3]]`, `_raw_predict(.., full_cov=False)` returns normally
with the negative variance `9 - 36 = -27`. -/
theorem rawPredict_negative_variance_cex :
    diagEntry (rawPredict mdlBad xNew3 false) 0 = -27 ∧
    isOk (rawPredict mdlBad xNew3 false) = true ∧ ((-27 : ℚ) < 0) := by
  refine ⟨?_, rfl, by norm_num⟩
  simp [diagEntry, rawPredict, solveLower, solveCol, pdot, rowFun, kdiag, kmat,
    mdlBad, postOne, xNew3, kLin, Fin.sum_univ_one]
  norm_num

/-- Core inequality behind the salvageable part of C2: for a
lower-triangular `L` with nonzero diagonal satisfying
`L * Lᵀ = Km + S` with `Km` symmetric PSD and `S` PSD, each diagonal
entry of `Km` dominates the squared norm of the corresponding column of
the forward-substitution solution of `L Z = Kmᵀ`. -/
theorem varNonneg_core {N : ℕ} (L Km S : Matrix (Fin N) (Fin N) ℚ)
    (hL : lowerTri L) (hdg : ∀ i, L i i ≠ 0) (hS : isPSD S) (hK : isPSD Km)
    (hKsym : Kmᵀ = Km) (hfact : L * Lᵀ = Km + S) (i : Fin N) :
    0 ≤ Km i i - (fun r => solveLower L Kmᵀ r i) ⬝ᵥ (fun r => solveLower L Kmᵀ r i) := by
  set Z := solveLower L Kmᵀ with hZdef
  set z : Fin N → ℚ := fun r => Z r i with hzdef
  have hLZ : L * Z = Kmᵀ := solveLower_mul L hL hdg Kmᵀ
  have hcolz : L.mulVec z = Km.mulVec (Pi.single i 1) := by
    funext r
    have h1 : L.mulVec z r = (L * Z) r i := by
      simp [Matrix.mulVec, Matrix.mul_apply, Matrix.dotProduct, hzdef]
    have h2 : Km.mulVec (Pi.single i (1 : ℚ)) r = Km r i := by
      simp [Matrix.mulVec, Matrix.dotProduct_single]
    rw [h1, hLZ, h2]
    exact congrFun (congrFun hKsym r) i
  have hR : L * solveLower L (1 : Matrix (Fin N) (Fin N) ℚ) = 1 :=
    solveLower_mul L hL hdg (1 : Matrix (Fin N) (Fin N) ℚ)
  have hRL : solveLower L (1 : Matrix (Fin N) (Fin N) ℚ) * L = 1 :=
    Matrix.mul_eq_one_comm.mp hR
  have hT : Lᵀ * (solveLower L (1 : Matrix (Fin N) (Fin N) ℚ))ᵀ = 1 := by
    rw [← Matrix.transpose_mul, hRL, Matrix.transpose_one]
  set u : Fin N → ℚ := (solveLower L (1 : Matrix (Fin N) (Fin N) ℚ))ᵀ.mulVec z with hudef
  have hu : Lᵀ.mulVec u = z := by
    rw [hudef, Matrix.mulVec_mulVec, hT, Matrix.one_mulVec]
  have key1 : u ⬝ᵥ L.mulVec z = z ⬝ᵥ z := by
    rw [Matrix.dotProduct_mulVec, ← Matrix.mulVec_transpose, hu]
  have ha : (Pi.single i (1 : ℚ)) ⬝ᵥ Km.mulVec (Pi.single i 1) = Km i i := by
    simp [Matrix.single_dotProduct, Matrix.mulVec, Matrix.dotProduct_single]
  have hc : u ⬝ᵥ Km.mulVec (Pi.single i (1 : ℚ)) = z ⬝ᵥ z := by
    rw [← hcolz]
    exact key1
  have hb : (Pi.single i (1 : ℚ)) ⬝ᵥ Km.mulVec u = z ⬝ᵥ z := by
    rw [Matrix.dotProduct_mulVec, ← Matrix.mulVec_transpose, hKsym, ← hcolz,
      Matrix.dotProduct_comm]
    exact key1
  have hd2 : u ⬝ᵥ Km.mulVec u + u ⬝ᵥ S.mulVec u = z ⬝ᵥ z := by
    rw [← Matrix.dotProduct_add, ← Matrix.add_mulVec, ← hfact, ← Matrix.mulVec_mulVec, hu]
    exact key1
  have hq : 0 ≤ (Pi.single i (1 : ℚ) - u) ⬝ᵥ Km.mulVec (Pi.single i 1 - u) +
      u ⬝ᵥ S.mulVec u :=
    add_nonneg (hK _) (hS u)
  have hexp : (Pi.single i (1 : ℚ) - u) ⬝ᵥ Km.mulVec (Pi.single i 1 - u) +
      u ⬝ᵥ S.mulVec u = Km i i - z ⬝ᵥ z := by
    rw [Matrix.mulVec_sub, Matrix.dotProduct_sub, Matrix.sub_dotProduct,
      Matrix.sub_dotProduct, ha, hb, hc]
    linear_combination hd2
  linarith [hexp ▸ hq]

/-- C2 amended: `_raw_predict(.., full_cov=False)` returns the raw
value `Kdiag(Xnew) - columnwise-sum(Z*Z)` with no clipping, validation
or error reporting, and that value can be negative (see the
counterexample); what survives of the claim is its mathematical core:
whenever the cached Posterior is consistent — `L` lower triangular with
nonzero diagonal and `L * Lᵀ = K + S` for the current kernel matrix
`K = Covariance(X, X)` (symmetric PSD) and a PSD noise term `S` — the
call at the training inputs `X` returns normally and every entry of the
diagonal variance is non-negative in exact arithmetic. -/
theorem rawPredict_trainVar_nonneg {N D M : ℕ} (mdl : GPModel N D M)
    (hL : lowerTri mdl.posterior.woodbury_chol)
    (hdg : ∀ i, mdl.posterior.woodbury_chol i i ≠ 0)
    (S : Matrix (Fin N) (Fin N) ℚ) (hS : isPSD S)
    (hK : isPSD (kmat mdl.kern mdl.X mdl.X))
    (hKsym : (kmat mdl.kern mdl.X mdl.X)ᵀ = kmat mdl.kern mdl.X mdl.X)
    (hfact : mdl.posterior.woodbury_chol * (mdl.posterior.woodbury_chol)ᵀ =
      kmat mdl.kern mdl.X mdl.X + S)
    (i : Fin N) :
    isOk (rawPredict mdl mdl.X false) = true ∧
    0 ≤ diagEntry (rawPredict mdl mdl.X false) i := by
  refine ⟨rfl, ?_⟩
  have hcore := varNonneg_core mdl.posterior.woodbury_chol
    (kmat mdl.kern mdl.X mdl.X) S hL hdg hS hK hKsym hfact i
  have hde : diagEntry (rawPredict mdl mdl.X false) i =
      kmat mdl.kern mdl.X mdl.X i i -
      (fun r => solveLower mdl.posterior.woodbury_chol ((kmat mdl.kern mdl.X mdl.X)ᵀ) r i) ⬝ᵥ
      (fun r => solveLower mdl.posterior.woodbury_chol ((kmat mdl.kern mdl.X mdl.X)ᵀ) r i) := rfl
  rw [hde]
  exact hcore

/-- Witness for the amended C2 at the consistent concrete model
`mdlGood` (`K = [[1]]`, noise `[[3]]`, `L = [[2]]`): all hypotheses
hold and the returned training variance (which evaluates to `3/4`) is
non-negative. -/
theorem rawPredict_trainVar_nonneg_witness :
    lowerTri mdlGood.posterior.woodbury_chol ∧
    (∀ i, mdlGood.posterior.woodbury_chol i i ≠ 0) ∧
    isPSD sigma1 ∧
    isPSD (kmat mdlGood.kern mdlGood.X mdlGood.X) ∧
    (kmat mdlGood.kern mdlGood.X mdlGood.X)ᵀ = kmat mdlGood.kern mdlGood.X mdlGood.X ∧
    mdlGood.posterior.woodbury_chol * (mdlGood.posterior.woodbury_chol)ᵀ =
      kmat mdlGood.kern mdlGood.X mdlGood.X + sigma1 ∧
    (isOk (rawPredict mdlGood mdlGood.X false) = true ∧
      0 ≤ diagEntry (rawPredict mdlGood mdlGood.X false) 0) := by
  have hS : isPSD sigma1 := by
    intro x
    have h : x ⬝ᵥ sigma1.mulVec x = x 0 * (3 * x 0) := by
      simp [sigma1, Matrix.dotProduct, Matrix.mulVec, Fin.sum_univ_one]
    rw [h]
    nlinarith [mul_self_nonneg (x 0)]
  have hK : isPSD (kmat mdlGood.kern mdlGood.X mdlGood.X) := by
    intro x
    have h : x ⬝ᵥ (kmat mdlGood.kern mdlGood.X mdlGood.X).mulVec x = x 0 * (1 * x 0) := by
      simp [kmat, mdlGood, kLin, Matrix.dotProduct, Matrix.mulVec, Fin.sum_univ_one]
    rw [h]
    nlinarith [mul_self_nonneg (x 0)]
  have hsym : (kmat mdlGood.kern mdlGood.X mdlGood.X)ᵀ = kmat mdlGood.kern mdlGood.X mdlGood.X :=
    rfl
  have hfact : mdlGood.posterior.woodbury_chol * (mdlGood.posterior.woodbury_chol)ᵀ =
      kmat mdlGood.kern mdlGood.X mdlGood.X + sigma1 := by
    ext i j
    fin_cases i; fin_cases j
    simp [mdlGood, postGood, sigma1, kmat, kLin, Matrix.mul_apply, Fin.sum_univ_one]
    norm_num
  exact ⟨by decide, by decide, hS, hK, hsym, hfact,
    rawPredict_trainVar_nonneg mdlGood (by decide) (by decide) sigma1 hS hK hsym hfact 0⟩

/-- C3: requesting a non-`None` inference method makes the constructor
fail — but with `NameError` on the unbound module-level name
`expectation_propagation` (the code's own intent, per its `print`
statement, was to fall back silently to expectation propagation), not
with the clear Unsupported error the specification requires.  Evaluated
at a concrete well-shaped construction with a caller-supplied
engine. -/
theorem gp_init_nonNone_inference_method_nameError :
    GP_init xRows1 yRows1 kLin (LikKind.gaussian [1]) pvId engineFail (some engineSupplied) =
      Except.error (PyErr.nameError "expectation_propagation") ∧
    GP_init xRows1 yRows1 kLin (LikKind.gaussian [1]) pvId engineFail (some engineSupplied) ≠
      Except.error PyErr.unsupported := by
  have h1 : GP_init xRows1 yRows1 kLin (LikKind.gaussian [1]) pvId engineFail
      (some engineSupplied) = Except.error (PyErr.nameError "expectation_propagation") := rfl
  refine ⟨h1, ?_⟩
  intro hc
  rw [h1] at hc
  exact PyErr.noConfusion (Except.error.inj hc)

/-- C4: if the inference triggered by `parameters_changed` fails, the
previously cached Posterior is left intact (the `self.posterior`
assignment never executes), for every model state and every behaviour
of the inference engine. -/
theorem parameters_changed_fail_keeps_posterior {N D M : ℕ} (mdl : GPModel N D M)
    (h : ((parameters_changed mdl).1).isSome = true) :
    ((parameters_changed mdl).2).posterior = mdl.posterior := by
  rcases him : mdl.inference_method with _ | im
  · simp [parameters_changed, him]
  · rcases hinf : im.inference (kmat mdl.kern mdl.X mdl.X) mdl.likKind mdl.Y with e | p
    · simp [parameters_changed, him, hinf]
    · exfalso
      simp [parameters_changed, him, hinf] at h

/-- Witness for C4 at the concrete state `mdlBad`, whose inference
method is `None` so that the triggered inference fails. -/
theorem parameters_changed_fail_keeps_posterior_witness :
    ((parameters_changed mdlBad).1).isSome = true ∧
    ((parameters_changed mdlBad).2).posterior = mdlBad.posterior :=
  ⟨rfl, parameters_changed_fail_keeps_posterior mdlBad rfl⟩

/-- C5: with a mixed-noise likelihood, `posterior_samples` raises
`NameError` on every route — under the source's default
`full_cov=True` it dies on the unbound `tdot` inside `_raw_predict`,
and with `full_cov=False` it dies on the unbound `Gaussian_Mixed_Noise`
in the `elif` dispatch, whether the `noise_model` selector is omitted
or validly supplied.  The `assert noise_model is not None`
(InvalidArgument) and the successful sampling path are both
unreachable. -/
theorem posterior_samples_mixed_noise_nameError :
    posterior_samples mdlMixed zOracle zOracle xNew3 10 true none =
      Except.error (PyErr.nameError "tdot") ∧
    posterior_samples mdlMixed zOracle zOracle xNew3 10 false none =
      Except.error (PyErr.nameError "Gaussian_Mixed_Noise") ∧
    posterior_samples mdlMixed zOracle zOracle xNew3 10 false (some 0) =
      Except.error (PyErr.nameError "Gaussian_Mixed_Noise") :=
  ⟨rfl, rfl, rfl⟩

/-- C6: `posterior_samples_f` with `full_cov=True` (the source's
default) raises `NameError` on the unbound `tdot` inside
`_raw_predict` instead of drawing joint samples from the full
covariance; no `N_new x count` matrix is ever produced on this
branch. -/
theorem posterior_samples_f_fullcov_nameError :
    posterior_samples_f mdlBad zOracle xNew3 10 true =
      Except.error (PyErr.nameError "tdot") ∧
    isOk (posterior_samples_f mdlBad zOracle xNew3 10 true) = false :=
  ⟨rfl, rfl⟩

/-- C7: `_raw_predict` with `full_cov=True` on a single-point input
raises `NameError` on the unbound `tdot`; no 1x1 covariance is
returned, while the diagonal call at the same point succeeds — so the
claimed boundary equality never gets to hold. -/
theorem rawPredict_fullcov_single_nameError :
    rawPredict mdlBad xNew3 true = Except.error (PyErr.nameError "tdot") ∧
    isOk (rawPredict mdlBad xNew3 false) = true :=
  ⟨rfl, rfl⟩

/-- C8: `predict` writes nothing to the model state, and two
consecutive calls with identical arguments (and no intervening
`parameters_changed`) return identical results, for every model,
input, and covariance mode. -/
theorem predict_deterministic {N D M P : ℕ} (mdl : GPModel N D M)
    (Xnew : Matrix (Fin P) (Fin D) ℚ) (full_cov : Bool) :
    (predict mdl Xnew full_cov).2 = mdl ∧
    (predict ((predict mdl Xnew full_cov).2) Xnew full_cov).1 =
      (predict mdl Xnew full_cov).1 := by
  rcases hr : rawPredict mdl Xnew full_cov with e | pr
  · simp [predict, hr]
  · simp [predict, hr]

/-- C9: constructing a GP model from `X` and `Y` with differing row
counts fails with the shape-mismatch assertion
`Y.shape[0] == self.num_data`, whatever the other arguments are. -/
theorem gp_init_row_mismatch_error {NX NY D M : ℕ}
    (X : Matrix (Fin NX) (Fin D) ℚ) (Y : Matrix (Fin NY) (Fin M) ℚ)
    (kernel : (Fin D → ℚ) → (Fin D → ℚ) → ℚ) (likelihood : LikKind)
    (pv : {P : ℕ} → Matrix (Fin P) (Fin M) ℚ → RawVar P → Bool → PVOut P M)
    (engine : InfMethod NX M) (im : Option (InfMethod NX M)) (h : NY ≠ NX) :
    GP_init X Y kernel likelihood pv engine im =
      Except.error (PyErr.assertionError "Y.shape[0] == self.num_data") := by
  unfold GP_init
  rw [dif_neg h]

/-- Witness for C9 at a concrete mismatched pair (`X` has 2 rows, `Y`
has 1). -/
theorem gp_init_row_mismatch_error_witness :
    (1 : ℕ) ≠ 2 ∧
    GP_init xRows2 yRows1 kLin (LikKind.gaussian [1]) pvId engineFail none =
      Except.error (PyErr.assertionError "Y.shape[0] == self.num_data") :=
  ⟨by decide, gp_init_row_mismatch_error xRows2 yRows1 kLin (LikKind.gaussian [1])
    pvId engineFail none (by decide)⟩

/-- C10 counterexample: with a caller-supplied engine the constructor
does not install any expectation-propagation default (or anything
else): construction fails with `NameError` on the unbound
`expectation_propagation` and no model is produced. -/
theorem gp_init_engine_replacement_cex :
    GP_init xRows1 yRows1 kLin LikKind.other pvId engineFail (some engineSupplied) =
      Except.error (PyErr.nameError "expectation_propagation") ∧
    isOk (GP_init xRows1 yRows1 kLin LikKind.other pvId engineFail (some engineSupplied)) =
      false :=
  ⟨rfl, rfl⟩

/-- C10 amended: for every well-shaped construction with a non-`None`
`inference_method` argument, the supplied engine is discarded and never
installed — not because an expectation-propagation default replaces it,
but because the assignment references the undefined module-level name
`expectation_propagation`, so construction always fails with that
`NameError` and no model (with any inference method) is returned. -/
theorem gp_init_supplied_engine_never_installed {NX D M : ℕ}
    (X : Matrix (Fin NX) (Fin D) ℚ) (Y : Matrix (Fin NX) (Fin M) ℚ)
    (kernel : (Fin D → ℚ) → (Fin D → ℚ) → ℚ) (likelihood : LikKind)
    (pv : {P : ℕ} → Matrix (Fin P) (Fin M) ℚ → RawVar P → Bool → PVOut P M)
    (engine supplied : InfMethod NX M) :
    GP_init X Y kernel likelihood pv engine (some supplied) =
      Except.error (PyErr.nameError "expectation_propagation") := by
  unfold GP_init
  rw [dif_pos rfl]
